import Mathlib

/-!
Verification development for the WhatsApp/ADK bridge (`src/index.js`).

The JavaScript source is shallowly embedded: each relevant method of
`GcsArtifactService`, `MediaHandler`, `UserSessionManager` and `WhatsAppBot`
becomes an executable Lean function over explicit state (the GCS bucket is a
finite association list from object names to values, the backend is an oracle
of HTTP statuses and session-creation results, timestamps and decoded
documents are inputs).  String-valued paths are kept as strings, and the
JS string primitives used by the source (`split`, `startsWith`, `includes`,
`replace`, template interpolation of numbers, `.sort()`) are modelled by
structurally recursive char-list functions below so that every definition
evaluates inside the kernel.
-/

/-! ## String primitives used by the JavaScript source -/

/-- Decimal digit character (used to model JS template interpolation of a
number, which prints its decimal representation). -/
def decDigit (d : Nat) : Char :=
  match d with
  | 0 => '0' | 1 => '1' | 2 => '2' | 3 => '3' | 4 => '4'
  | 5 => '5' | 6 => '6' | 7 => '7' | 8 => '8' | _ => '9'

/-- Fuel-driven most-significant-first decimal digit list of a number. -/
def decChars (fuel n : Nat) : List Char :=
  match fuel with
  | 0 => []
  | fuel + 1 =>
    if n < 10 then [decDigit n]
    else decChars fuel (n / 10) ++ [decDigit (n % 10)]

/-- Decimal representation of a natural number, modelling the JS
interpolation `${n}` of a nonnegative integer. -/
def decRepr (n : Nat) : String := ⟨decChars (n + 1) n⟩

/-- Numeric value of a decimal digit character (modelling the digit-wise
reading done by `parseInt` on an all-digit string). -/
def decVal (c : Char) : Nat := c.toNat - 48

/-- Value of a most-significant-first decimal digit string. -/
def digitsVal (cs : List Char) : Nat := cs.foldl (fun a c => 10 * a + decVal c) 0

/-- JS `s.startsWith(p)`. -/
def startsWithS (s pat : String) : Bool := pat.data.isPrefixOf s.data

/-- JS `s.includes(pat)` on char lists. -/
def containsSeg (pat : List Char) : List Char → Bool
  | [] => pat.isEmpty
  | c :: rest => pat.isPrefixOf (c :: rest) || containsSeg pat rest

/-- JS `s.includes(pat)`. -/
def containsS (s pat : String) : Bool := containsSeg pat.data s.data

/-- JS `s.substring(n)` (counted in characters). -/
def strDrop (s : String) (n : Nat) : String := ⟨s.data.drop n⟩

/-- JS `s.length` (counted in characters). -/
def strLen (s : String) : Nat := s.data.length

/-- JS `s.split(sep)` for a single-character separator, on char lists.
`split` always returns at least one (possibly empty) group. -/
def splitChar (sep : Char) : List Char → List (List Char)
  | [] => [[]]
  | c :: rest =>
    if c = sep then [] :: splitChar sep rest
    else
      match splitChar sep rest with
      | [] => [[c]]
      | g :: gs => (c :: g) :: gs

/-- JS `s.split('/')`. -/
def splitSlash (s : String) : List String := (splitChar '/' s.data).map fun cs => ⟨cs⟩

/-- JS `s.replace(pat, repl)` (first occurrence only), on char lists. -/
def listReplaceFirst (pat repl : List Char) : List Char → List Char
  | [] => []
  | c :: rest =>
    if pat.isPrefixOf (c :: rest) then repl ++ (c :: rest).drop pat.length
    else c :: listReplaceFirst pat repl rest

/-- JS `s.replace(pat, repl)` (first occurrence only). -/
def replaceFirst (s pat repl : String) : String := ⟨listReplaceFirst pat.data repl.data s.data⟩

/-- Lexicographic comparison of char lists (model of the JS default string
comparison used by `Array.prototype.sort()`). -/
def charListLe : List Char → List Char → Bool
  | [], _ => true
  | _ :: _, [] => false
  | a :: as, b :: bs => if a = b then charListLe as bs else decide (a < b)

/-- JS default string comparison for `.sort()`. -/
def strLeB (a b : String) : Bool := charListLe a.data b.data

/-- Insert into a sorted list (model of a comparison sort step). -/
def insertLe (le : α → α → Bool) (x : α) : List α → List α
  | [] => [x]
  | y :: ys => if le x y then x :: y :: ys else y :: insertLe le x ys

/-- Comparison sort, modelling JS `Array.prototype.sort(cmp)`. -/
def sortLe (le : α → α → Bool) : List α → List α
  | [] => []
  | x :: xs => insertLe le x (sortLe le xs)

/-- Concatenation of a list of strings. -/
def strJoin : List String → String
  | [] => ""
  | s :: rest => s ++ strJoin rest

/-! ## GCS bucket model

A GCS bucket is a finite association list from object names to values.
`bucketPut` models `file(path).save(...)` (an overwrite), `bucketGet` models
`file(path).exists()` + `download()`, and filtering by `startsWithS` models
`getFiles({ prefix })`.  The value type is a parameter: code paths that
round-trip a JSON wrapper (`saveArtifact` / `loadArtifact`) use the parsed
`ArtifactData`, the ADK raw-image path (`loadArtifactBySession`) uses raw
bytes. -/

abbrev Bucket (α : Type) : Type := List (String × α)

def bucketPut (b : Bucket α) (path : String) (v : α) : Bucket α :=
  (List.filter (fun e => e.1 != path) b) ++ [(path, v)]

def bucketGet (b : Bucket α) (path : String) : Option α :=
  (List.find? (fun e => e.1 == path) b).map (fun e => e.2)

def bucketFiles (b : Bucket α) (pre : String) : Bucket α :=
  List.filter (fun e => startsWithS e.1 pre) b

/-! ## GcsArtifactService -/

/-- Payload stored for an artifact part (a JS value that is either a Buffer
or a base64 string in the source). -/
inductive PayloadData where
  | buf (bytes : List Nat)
  | str (s : String)
deriving DecidableEq

/-- The JSON object `saveArtifact` writes (and `loadArtifact` parses back):
`{ mimeType, data, timestamp, filename }` (src/index.js lines 197-202). -/
structure ArtifactData where
  mimeType : String
  data : Option PayloadData
  timestamp : String
  filename : String
deriving DecidableEq

/-- An ADK `Part` object as used by the source: optional top-level
`mimeType`/`data` plus optional `inline_data` fields. -/
structure AdkPart where
  mimeType : Option String
  inlineMimeType : Option String
  inlineData : Option PayloadData
  data : Option PayloadData
deriving DecidableEq

/-- `GcsArtifactService.getArtifactPath` (src/index.js lines 184-187):
`appName/userId/sessionId/filename`, with `sessionId` defaulting to
`"shared"`. -/
def getArtifactPath (appName userId filename : String) (sessionId : String := "shared") : String :=
  appName ++ "/" ++ userId ++ "/" ++ sessionId ++ "/" ++ filename

/-- The regex match `file.name.match(/\/v(\d+)$/)` of `listVersions`
(src/index.js line 384): the name must end in a slash, a literal `v`, and a
nonempty run of digits, whose decimal value is returned. -/
def parseVersionSuffix (name : String) : Option Nat :=
  let rev := name.data.reverse
  let ds := rev.takeWhile Char.isDigit
  if ds.isEmpty then none
  else
    match rev.dropWhile Char.isDigit with
    | 'v' :: '/' :: _ => some (digitsVal ds.reverse)
    | _ => none

/-- `GcsArtifactService.listVersions` (src/index.js lines 375-395): list all
objects under `{artifactPath}/v`, parse the `/v<digits>` suffix of each name,
drop failures, sort ascending. -/
def listVersions (b : Bucket ArtifactData) (appName userId filename sessionId : String) : List Nat :=
  let artifactPath := getArtifactPath appName userId filename sessionId
  let files := bucketFiles b (artifactPath ++ "/v")
  sortLe (fun a b => Nat.ble a b)
    ((files.map (fun e => parseVersionSuffix e.1)).filterMap id)

/-- `GcsArtifactService.saveArtifact` (src/index.js lines 192-231): build the
`artifactData` JSON from the part, compute `nextVersion` as
`max(existing) + 1` (or `1` when no version exists), and write at
`{artifactPath}/v{nextVersion}`.  The wall-clock timestamp is an input.
Returns the assigned version and the updated bucket. -/
def saveArtifact (b : Bucket ArtifactData) (appName userId filename : String)
    (part : AdkPart) (sessionId : String) (timestamp : String) : Nat × Bucket ArtifactData :=
  let artifactPath := getArtifactPath appName userId filename sessionId
  let artifactData : ArtifactData :=
    { mimeType := (part.mimeType.orElse fun _ => part.inlineMimeType).getD "application/octet-stream"
      data := part.data.orElse fun _ => part.inlineData
      timestamp := timestamp
      filename := filename }
  let versions := listVersions b appName userId filename sessionId
  let nextVersion := if versions.length > 0 then versions.foldl max 0 + 1 else 1
  let versionedPath := artifactPath ++ "/v" ++ decRepr nextVersion
  (nextVersion, bucketPut b versionedPath artifactData)

/-- A sequence of `saveArtifact` calls to the same logical key, one per
`(part, timestamp)` input, returning the versions in call order and the
final bucket. -/
def saveSeq (b : Bucket ArtifactData) (appName userId filename sessionId : String) :
    List (AdkPart × String) → List Nat × Bucket ArtifactData
  | [] => ([], b)
  | (part, ts) :: rest =>
    let r := saveArtifact b appName userId filename part sessionId ts
    let r2 := saveSeq r.2 appName userId filename sessionId rest
    (r.1 :: r2.1, r2.2)

/-- `GcsArtifactService.loadArtifact` (src/index.js lines 236-275): resolve
the target version (a falsy requested version — absent or `0` — means
"latest existing", found by `listVersions`; no versions means `null`), then
read `{artifactPath}/v{targetVersion}` and return the stored part.  No
filename-variant stripping of any kind is performed. -/
def loadArtifact (b : Bucket ArtifactData) (appName userId filename : String)
    (version : Option Nat := none) (sessionId : String := "shared") : Option AdkPart :=
  let artifactPath := getArtifactPath appName userId filename sessionId
  let requested : Option Nat :=
    match version with
    | none => none
    | some 0 => none
    | some v => some v
  let target : Option Nat :=
    match requested with
    | some v => some v
    | none =>
      let versions := listVersions b appName userId filename sessionId
      if versions.length > 0 then some (versions.foldl max 0) else none
  match target with
  | none => none
  | some v =>
    match bucketGet b (artifactPath ++ "/v" ++ decRepr v) with
    | none => none
    | some a => some ⟨some a.mimeType, some a.mimeType, a.data, a.data⟩

/-- Set-insert preserving first-insertion order (model of `Set.add` followed
by `Array.from`). -/
def setAdd (acc : List String) (x : String) : List String :=
  if x ∈ acc then acc else acc ++ [x]

/-- The filename-extraction test of `listArtifactKeys` (src/index.js lines
409-413): take the path relative to the user prefix, split on `/`, and
yield the first segment when there are at least two segments and the second
starts with `v`. -/
def legacyKeyOf (userPath name : String) : Option String :=
  let relativePath := strDrop name (strLen userPath)
  match splitSlash relativePath with
  | p0 :: p1 :: _ => if startsWithS p1 "v" then some p0 else none
  | _ => none

/-- The per-file step of `listArtifactKeys` (src/index.js lines 408-415):
add the extracted first segment, if any, to the set. -/
def considerName (userPath : String) (acc : List String) (name : String) : List String :=
  match legacyKeyOf userPath name with
  | some p0 => setAdd acc p0
  | none => acc

/-- `GcsArtifactService.listArtifactKeys` (src/index.js lines 400-422): list
objects under `{artifactsFolder}/{appName}/{userId}/`, collect first path
segments of entries whose second segment starts with `v`, and sort. -/
def listArtifactKeys (b : Bucket α) (artifactsFolder appName userId : String) : List String :=
  let userPath := artifactsFolder ++ "/" ++ appName ++ "/" ++ userId ++ "/"
  let files := bucketFiles b userPath
  sortLe strLeB (files.foldl (fun acc e => considerName userPath acc e.1) [])

/-! ### Base64 (model of the Buffer base64 rendering) -/

def base64Table : List Char :=
  "ABCDEFGHIJKLMNOPQRSTUVWXYZabcdefghijklmnopqrstuvwxyz0123456789+/".data

def b64Char (n : Nat) : Char := base64Table.getD n 'A'

def base64Chunks : List Nat → List Char
  | b1 :: b2 :: b3 :: rest =>
    b64Char (b1 / 4) :: b64Char (b1 % 4 * 16 + b2 / 16) ::
      b64Char (b2 % 16 * 4 + b3 / 64) :: b64Char (b3 % 64) :: base64Chunks rest
  | [b1, b2] => [b64Char (b1 / 4), b64Char (b1 % 4 * 16 + b2 / 16), b64Char (b2 % 16 * 4), '=']
  | [b1] => [b64Char (b1 / 4), b64Char (b1 % 4 * 16), '=', '=']
  | [] => []

def base64Encode (bytes : List Nat) : String := ⟨base64Chunks bytes⟩

/-- The value returned to the WhatsApp sender by `loadArtifactBySession`:
a MIME type plus base64 payload. -/
structure LoadedImage where
  mimeType : String
  data : String
deriving DecidableEq

/-- The filename-substring MIME detection of `loadArtifactBySession`
(src/index.js lines 336-342). -/
def mimeFromFilename (filename : String) : String :=
  if containsS filename ".jpg" || containsS filename ".jpeg" then "image/jpeg"
  else if containsS filename ".webp" then "image/webp"
  else "image/png"

/-- `GcsArtifactService.loadArtifactBySession` (src/index.js lines 296-370):
read the raw bytes at `{appName}/{userId}/{sessionId}/{filename}/{version}`
(version defaulting to the sentinel `0`), base64-encode them, and attach a
MIME type derived from the filename alone. -/
def loadArtifactBySession (b : Bucket (List Nat)) (appName userId sessionId filename : String)
    (version : Nat := 0) : Option LoadedImage :=
  let artifactPath :=
    appName ++ "/" ++ userId ++ "/" ++ sessionId ++ "/" ++ filename ++ "/" ++ decRepr version
  match bucketGet b artifactPath with
  | none => none
  | some bytes => some ⟨mimeFromFilename filename, base64Encode bytes⟩

/-! ## MediaHandler -/

/-- `MediaHandler.getExtensionFromMimeType` (src/index.js lines 480-499). -/
def getExtensionFromMimeType (mimeType : String) : String :=
  if mimeType = "image/jpeg" then ".jpg"
  else if mimeType = "image/png" then ".png"
  else if mimeType = "image/gif" then ".gif"
  else if mimeType = "image/webp" then ".webp"
  else if mimeType = "audio/mpeg" then ".mp3"
  else if mimeType = "audio/ogg" then ".ogg"
  else if mimeType = "audio/wav" then ".wav"
  else if mimeType = "audio/mp4" then ".m4a"
  else if mimeType = "video/mp4" then ".mp4"
  else if mimeType = "video/quicktime" then ".mov"
  else if mimeType = "video/x-msvideo" then ".avi"
  else if mimeType = "application/pdf" then ".pdf"
  else if mimeType = "text/plain" then ".txt"
  else if mimeType = "application/vnd.openxmlformats-officedocument.wordprocessingml.document" then ".docx"
  else if mimeType = "application/vnd.openxmlformats-officedocument.spreadsheetml.sheet" then ".xlsx"
  else ".bin"

/-- `MediaHandler.generateRandomFilename` (src/index.js lines 471-475), with
the random UUID supplied as an input. -/
def generateRandomFilename (uuid mimeType : String) : String :=
  "media_" ++ uuid ++ getExtensionFromMimeType mimeType

def xlsxMime : String := "application/vnd.openxmlformats-officedocument.spreadsheetml.sheet"

def docxMime : String := "application/vnd.openxmlformats-officedocument.wordprocessingml.document"

/-- One worksheet of a decoded workbook: its name and the delimited-text
rendering produced by the external `XLSX.utils.sheet_to_csv`. -/
structure Worksheet where
  name : String
  csv : String
deriving DecidableEq

/-- `MediaHandler.convertXlsxToText` (src/index.js lines 504-526): for each
worksheet in workbook order, append a sheet-header line and the CSV
rendering.  The decoded workbook (result of the external `XLSX.read`) is
the input. -/
def convertXlsxToText (sheets : List Worksheet) : String :=
  (sheets.enum).foldl
    (fun acc p =>
      acc ++ "\n=== Sheet " ++ decRepr (p.1 + 1) ++ ": " ++ p.2.name ++ " ===\n" ++ p.2.csv ++ "\n")
    ""

/-- One inbound media payload after download, MIME resolution and filename
resolution (src/index.js lines 546-566): the resolved MIME type and
filename, the raw bytes, and the outputs the external decoders would
produce for them (`XLSX.read` for a spreadsheet, `mammoth.extractRawText`
for a word-processor document). -/
structure MediaInput where
  mimeType : String
  filename : String
  bytes : List Nat
  xlsxSheets : List Worksheet
  docxText : String

/-- Result record returned by `processMediaMessage`; `originalFormat = none`
models the absence of the `converted`/`originalFormat` fields on the
pass-through path. -/
structure MediaResult where
  filename : String
  mimeType : String
  version : Nat
  partData : PayloadData
  converted : Bool
  originalFormat : Option String
deriving DecidableEq

/-- The conversion/dispatch core of `MediaHandler.processMediaMessage`
(src/index.js lines 568-668), after download and MIME/filename resolution:
exactly the two Office MIME types convert to `text/plain` (rewriting the
first occurrence of the source extension in the filename to `.txt`), every
other MIME type passes through unchanged; in each branch the artifact is
saved under the resulting filename.  Returns the result record and the
updated artifact bucket. -/
def processMediaMessage (b : Bucket ArtifactData) (appName userId sessionId : String)
    (m : MediaInput) (timestamp : String) : MediaResult × Bucket ArtifactData :=
  if m.mimeType = xlsxMime then
    let textContent := convertXlsxToText m.xlsxSheets
    let part : AdkPart := ⟨some "text/plain", some "text/plain",
      some (.str (base64Encode m.bytes)), some (.str textContent)⟩
    let outName := replaceFirst m.filename ".xlsx" ".txt"
    let r := saveArtifact b appName userId outName part sessionId timestamp
    (⟨outName, "text/plain", r.1, .str textContent, true, some "XLSX"⟩, r.2)
  else if m.mimeType = docxMime then
    let textContent := m.docxText
    let part : AdkPart := ⟨some "text/plain", some "text/plain",
      some (.str (base64Encode m.bytes)), some (.str textContent)⟩
    let outName := replaceFirst m.filename ".docx" ".txt"
    let r := saveArtifact b appName userId outName part sessionId timestamp
    (⟨outName, "text/plain", r.1, .str textContent, true, some "DOCX"⟩, r.2)
  else
    let part : AdkPart := ⟨some m.mimeType, some m.mimeType,
      some (.str (base64Encode m.bytes)), some (.buf m.bytes)⟩
    let r := saveArtifact b appName userId m.filename part sessionId timestamp
    (⟨m.filename, m.mimeType, r.1, .buf m.bytes, false, none⟩, r.2)

/-! ## UserSessionManager and session resolution -/

/-- The session record kept in the in-memory `activeSessions` map
(src/index.js lines 975-1001); only the fields the claims are about. -/
structure ResolvedSession where
  sessionId : String
  isReturningUser : Bool
deriving DecidableEq

/-- Combined session state: the in-memory `activeSessions` cache and the
durable GCS mapping kept by `UserSessionManager` (keyed by user id; the
durable value is the stored `sessionId`). -/
structure SessionState where
  cache : List (String × ResolvedSession)
  durable : List (String × String)
deriving DecidableEq

/-- Overwrite-or-insert into an association map (JS `Map.set`, and the GCS
`file.save` overwrite used by `storeUserSession`). -/
def mapSet (m : List (String × α)) (k : String) (v : α) : List (String × α) :=
  (k, v) :: List.filter (fun e => e.1 != k) m

/-- The session-resolution step of `WhatsAppBot.handleIncomingMessages`
(src/index.js lines 967-1017): an in-memory cache hit returns the cached
record unchanged (only `lastActivity` is refreshed, and
`updateUserActivity` rewrites the durable record with the same session id);
otherwise the durable mapping is consulted (`getUserSession`), yielding
`isReturningUser = true`; otherwise a backend session is created (its
outcome is the `createResult` input), stored durably and cached with
`isReturningUser = false`.  Returns `none` when session creation fails. -/
def resolveSession (st : SessionState) (userId : String) (createResult : Option String) :
    Option ResolvedSession × SessionState :=
  match List.lookup userId st.cache with
  | some sess => (some sess, st)
  | none =>
    match List.lookup userId st.durable with
    | some storedSid =>
      let sess : ResolvedSession := ⟨storedSid, true⟩
      (some sess, ⟨mapSet st.cache userId sess, st.durable⟩)
    | none =>
      match createResult with
      | none => (none, st)
      | some sid =>
        let sess : ResolvedSession := ⟨sid, false⟩
        (some sess, ⟨mapSet st.cache userId sess, mapSet st.durable userId sid⟩)

/-- Eviction of one user from the in-memory cache (the `cleanupSessions`
sweep, src/index.js lines 1700-1710, or a process restart); the durable
mapping is untouched. -/
def evictCache (st : SessionState) (userId : String) : SessionState :=
  ⟨List.filter (fun e => e.1 != userId) st.cache, st.durable⟩

/-! ## Turn dispatcher: `sendToADK` and its 500-handler -/

/-- State touched by `sendToADK`: the in-memory `activeSessions` map (viewed
as user id to session id) and the durable `UserSessionManager` mapping. -/
structure DispatchState where
  cache : List (String × String)
  durable : List (String × String)
deriving DecidableEq

/-- The 500-handler cache update (src/index.js lines 1332-1334): the session
id of an existing `activeSessions` entry is overwritten; no entry is
created for an absent user. -/
def cacheReplace (cache : List (String × String)) (userId sid : String) :
    List (String × String) :=
  cache.map fun e => if e.1 == userId then (e.1, sid) else e

/-- Observable outcome of one `sendToADK` call tree. -/
inductive AdkSendOutcome where
  | reply
  | serviceIssueMessage
  | unexpectedStatus (code : Nat)
  | oracleExhausted
deriving DecidableEq

/-- Result of a `sendToADK` call tree: the outcome, the final state, and the
number of session replacements (successful `createADKSession` calls whose id
was installed) and of `createADKSession` calls performed. -/
structure SendResult where
  outcome : AdkSendOutcome
  state : DispatchState
  replaceCount : Nat
  createCalls : Nat
deriving DecidableEq

/-- `WhatsAppBot.sendToADK` (src/index.js lines 1278-1368; the streaming
variant at lines 2094-2174 has the identical 500-handler): the backend is an
oracle giving the HTTP status of each successive submission and the outcome
of each successive `createADKSession` call.  On status 500 the handler
creates a new session; if creation succeeds the cache entry is overwritten
and the whole submission recurses with the new session; if creation fails a
fixed apology message is terminal.  Status 200 resolves to the processed
reply; any other status resolves to an error message.  The durable mapping
is never touched by this method. -/
def sendToADK (userId : String) :
    List Nat → List (Option String) → DispatchState → SendResult
  | [], _, st => ⟨.oracleExhausted, st, 0, 0⟩
  | status :: restStatuses, creates, st =>
    if status = 500 then
      match creates with
      | some newSessionId :: creates' =>
        let st' : DispatchState := ⟨cacheReplace st.cache userId newSessionId, st.durable⟩
        let r := sendToADK userId restStatuses creates' st'
        ⟨r.outcome, r.state, r.replaceCount + 1, r.createCalls + 1⟩
      | none :: _ => ⟨.serviceIssueMessage, st, 0, 1⟩
      | [] => ⟨.serviceIssueMessage, st, 0, 1⟩
    else if status = 200 then ⟨.reply, st, 0, 0⟩
    else ⟨.unexpectedStatus status, st, 0, 0⟩

/-! ## Streaming response aggregator -/

/-- One part of a decoded SSE event (`eventData.content.parts[i]`). -/
structure SsePart where
  text : Option String
  thoughtSig : Bool
deriving DecidableEq

/-- One decoded SSE event: `parts = none` models an event without
`content.parts`; `partialFlag` models the JSON field `partial`, which may be
absent (`none`). -/
structure SseEvent where
  parts : Option (List SsePart)
  partialFlag : Option Bool
deriving DecidableEq

/-- The part search of `handleStreamingResponse` (src/index.js line 1395):
the first part with truthy `text` and no `thoughtSignature`. -/
def findTextPart (ps : List SsePart) : Option SsePart :=
  ps.find? fun p =>
    (match p.text with
     | some t => t != ""
     | none => false) && !p.thoughtSig

/-- The per-event text update (src/index.js lines 1394-1401): a found text
part replaces the running `fullResponse`; otherwise it is kept. -/
def stepText (acc : String) (e : SseEvent) : String :=
  match e.parts with
  | none => acc
  | some ps =>
    match findTextPart ps with
    | some p =>
      match p.text with
      | some t => t
      | none => acc
    | none => acc

/-- The event loop of `handleStreamingResponse` (src/index.js lines
1376-1416): process events in order; after each text update, an event whose
`partial` field is not `true`, at a point where the accumulated text is
nonempty, resolves immediately with that text (`Sum.inl`); otherwise the
loop continues, ending with the accumulated text (`Sum.inr`). -/
def accumulate : List SseEvent → String → String ⊕ String
  | [], acc => Sum.inr acc
  | e :: rest, acc =>
    let acc' := stepText acc e
    if e.partialFlag ≠ some true ∧ acc' ≠ "" then Sum.inl acc'
    else accumulate rest acc'

/-- How an unresolved stream terminates: the `end` event or the absolute
timeout (src/index.js lines 1418-1426 and 1433-1442). -/
inductive StreamEnd where
  | ended
  | timedOut
deriving DecidableEq

/-- The full outcome of `handleStreamingResponse` for a stream that delivers
the given decoded events and then terminates as `term`: early resolution
wins; otherwise the `end` handler returns the accumulated text or a fixed
apology, and the timeout handler returns the accumulated text or a fixed
timed-out message. -/
def streamOutcome (events : List SseEvent) (term : StreamEnd) : String :=
  match accumulate events "" with
  | Sum.inl r => r
  | Sum.inr acc =>
    match term with
    | .ended =>
      if acc ≠ "" then acc
      else "I received your message, but the response was incomplete. Please try again."
    | .timedOut =>
      if acc ≠ "" then acc
      else "Response timed out. Please try again with a shorter message."

/-- The absolute streaming timeout (src/index.js line 1442): double the
configured ADK request timeout. -/
def streamingTimeoutMs (adkTimeoutMs : Nat) : Nat := adkTimeoutMs * 2

/-! ### Lemmas about the string primitives -/

theorem insertLe_perm (le : α → α → Bool) (x : α) :
    ∀ l : List α, (insertLe le x l).Perm (x :: l) := by
  intro l
  induction l with
  | nil => simp [insertLe]
  | cons y ys ih =>
    by_cases h : le x y = true
    · simp [insertLe, h]
    · simp only [insertLe, h, if_false]
      exact (List.Perm.cons y ih).trans (List.Perm.swap x y ys)

theorem sortLe_perm (le : α → α → Bool) : ∀ l : List α, (sortLe le l).Perm l := by
  intro l
  induction l with
  | nil => simp [sortLe]
  | cons x xs ih =>
    exact (insertLe_perm le x (sortLe le xs)).trans (List.Perm.cons x ih)

theorem mem_sortLe (le : α → α → Bool) (a : α) (l : List α) :
    a ∈ sortLe le l ↔ a ∈ l := (sortLe_perm le l).mem_iff

theorem length_sortLe (le : α → α → Bool) (l : List α) :
    (sortLe le l).length = l.length := (sortLe_perm le l).length_eq

theorem foldl_max_perm {l₁ l₂ : List Nat} (h : l₁.Perm l₂) :
    ∀ a : Nat, l₁.foldl max a = l₂.foldl max a := by
  induction h with
  | nil => intro a; rfl
  | cons x _ ih => intro a; simp only [List.foldl_cons]; exact ih _
  | swap x y l =>
    intro a
    simp only [List.foldl_cons]
    have : max (max a y) x = max (max a x) y := by omega
    rw [this]
  | trans _ _ ih₁ ih₂ => intro a; exact (ih₁ a).trans (ih₂ a)

theorem foldl_max_sortLe (le : Nat → Nat → Bool) (l : List Nat) (a : Nat) :
    (sortLe le l).foldl max a = l.foldl max a :=
  foldl_max_perm (sortLe_perm le l) a

theorem decDigit_isDigit (d : Nat) : (decDigit d).isDigit = true := by
  rcases d with _ | _ | _ | _ | _ | _ | _ | _ | _ | d <;> rfl

theorem decVal_decDigit (d : Nat) (hd : d < 10) : decVal (decDigit d) = d := by
  interval_cases d <;> rfl

theorem decChars_ne_nil (fuel n : Nat) (h : 0 < fuel) : decChars fuel n ≠ [] := by
  cases fuel with
  | zero => omega
  | succ fuel =>
    by_cases hn : n < 10
    · simp [decChars, hn]
    · simp [decChars, hn]

theorem decChars_all_digit :
    ∀ fuel n, ∀ c ∈ decChars fuel n, c.isDigit = true := by
  intro fuel
  induction fuel with
  | zero => intro n c hc; simp [decChars] at hc
  | succ fuel ih =>
    intro n c hc
    by_cases hn : n < 10
    · simp [decChars, hn] at hc
      subst hc; exact decDigit_isDigit n
    · simp [decChars, hn] at hc
      rcases hc with hc | hc
      · exact ih _ c hc
      · subst hc; exact decDigit_isDigit (n % 10)

theorem digitsVal_decChars : ∀ fuel n, n < fuel → digitsVal (decChars fuel n) = n := by
  intro fuel
  induction fuel with
  | zero => intro n h; omega
  | succ fuel ih =>
    intro n h
    by_cases hn : n < 10
    · simp [decChars, hn, digitsVal, List.foldl, decVal_decDigit n hn]
    · have hdiv : n / 10 < fuel := by
        have h1 : n / 10 < n := Nat.div_lt_self (by omega) (by omega)
        omega
      have := ih (n / 10) hdiv
      simp only [decChars, hn, if_false, digitsVal] at *
      rw [List.foldl_append]
      simp only [List.foldl_cons, List.foldl_nil]
      rw [this, decVal_decDigit (n % 10) (Nat.mod_lt n (by omega))]
      omega

theorem decRepr_all_digit (n : Nat) : ∀ c ∈ (decRepr n).data, c.isDigit = true := by
  intro c hc
  exact decChars_all_digit (n + 1) n c hc

theorem decRepr_ne_nil (n : Nat) : (decRepr n).data ≠ [] :=
  decChars_ne_nil (n + 1) n (by omega)

theorem digitsVal_decRepr (n : Nat) : digitsVal (decRepr n).data = n :=
  digitsVal_decChars (n + 1) n (by omega)

theorem decRepr_no_slash (n : Nat) : ∀ c ∈ (decRepr n).data, c ≠ '/' := by
  intro c hc heq
  have := decChars_all_digit (n + 1) n c hc
  rw [heq] at this
  simp [Char.isDigit] at this

theorem startsWithS_append (a b : String) : startsWithS (a ++ b) a = true := by
  simp only [startsWithS, String.data_append]
  exact List.isPrefixOf_iff_prefix.mpr ⟨b.data, rfl⟩

theorem takeWhile_append_all {p : Char → Bool} :
    ∀ (xs ys : List Char), (∀ x ∈ xs, p x = true) →
      List.takeWhile p (xs ++ ys) = xs ++ List.takeWhile p ys := by
  intro xs ys h
  induction xs with
  | nil => rfl
  | cons x xs ih =>
    have hx : p x = true := h x (by simp)
    simp only [List.cons_append, List.takeWhile_cons, hx]
    rw [ih fun a ha => h a (by simp [ha])]
    simp

theorem dropWhile_append_all {p : Char → Bool} :
    ∀ (xs ys : List Char), (∀ x ∈ xs, p x = true) →
      List.dropWhile p (xs ++ ys) = List.dropWhile p ys := by
  intro xs ys h
  induction xs with
  | nil => rfl
  | cons x xs ih =>
    have hx : p x = true := h x (by simp)
    simp only [List.cons_append, List.dropWhile_cons, hx]
    exact ih fun a ha => h a (by simp [ha])

theorem strJoin_append : ∀ (l₁ l₂ : List String), strJoin (l₁ ++ l₂) = strJoin l₁ ++ strJoin l₂ := by
  intro l₁ l₂
  induction l₁ with
  | nil => simp [strJoin]
  | cons s rest ih => simp [strJoin, ih, String.append_assoc]

theorem foldl_append_strJoin (f : α → String) :
    ∀ (l : List α) (init : String),
      l.foldl (fun acc x => acc ++ f x) init = init ++ strJoin (l.map f) := by
  intro l
  induction l with
  | nil => intro init; simp [strJoin]
  | cons x rest ih =>
    intro init
    simp only [List.foldl_cons, List.map_cons, strJoin]
    rw [ih, String.append_assoc]

/-! ### Association-map lemmas -/

theorem lookup_mapSet_self (m : List (String × α)) (k : String) (v : α) :
    List.lookup k (mapSet m k v) = some v := by
  simp [mapSet, List.lookup]

theorem lookup_filter_ne (m : List (String × α)) (k : String) :
    List.lookup k (List.filter (fun e => e.1 != k) m) = none := by
  induction m with
  | nil => rfl
  | cons e rest ih =>
    by_cases h : e.1 = k
    · simp [List.filter, h, ih]
    · simp only [List.filter]
      have hne : (e.1 != k) = true := by simp [h]
      rw [hne]
      simp only [List.lookup]
      have : (k == e.1) = false := by simp [Ne.symm h]
      rw [this]
      exact ih

theorem lookup_cacheReplace (cache : List (String × String)) (u sid : String) :
    List.lookup u (cacheReplace cache u sid) = (List.lookup u cache).map fun _ => sid := by
  induction cache with
  | nil => rfl
  | cons e rest ih =>
    obtain ⟨k, v⟩ := e
    by_cases h : k = u
    · subst h
      have hmap : (if (((k, v) : String × String).1 == k) = true then ((k, v).1, sid) else (k, v)) =
          (k, sid) := by
        rw [if_pos (by simp)]
      simp only [cacheReplace, List.map_cons, hmap]
      simp [List.lookup, cacheReplace, ih]
    · have hcn : ¬((((k, v) : String × String).1 == u) = true) := by simp [h]
      have hne' : (u == k) = false := by simp [Ne.symm h]
      have hmap : (if (((k, v) : String × String).1 == u) = true then ((k, v).1, sid) else (k, v)) =
          (k, v) := by
        rw [if_neg hcn]
      simp only [cacheReplace, List.map_cons, hmap]
      simp only [List.lookup, hne']
      exact ih

theorem sendToADK_fault_step (userId : String) (restStatuses : List Nat) (nid : String)
    (creates' : List (Option String)) (st : DispatchState) :
    sendToADK userId (500 :: restStatuses) (some nid :: creates') st =
      ⟨(sendToADK userId restStatuses creates'
          ⟨cacheReplace st.cache userId nid, st.durable⟩).outcome,
       (sendToADK userId restStatuses creates'
          ⟨cacheReplace st.cache userId nid, st.durable⟩).state,
       (sendToADK userId restStatuses creates'
          ⟨cacheReplace st.cache userId nid, st.durable⟩).replaceCount + 1,
       (sendToADK userId restStatuses creates'
          ⟨cacheReplace st.cache userId nid, st.durable⟩).createCalls + 1⟩ := rfl

theorem sendToADK_success_step (userId : String) (restStatuses : List Nat)
    (creates : List (Option String)) (st : DispatchState) :
    sendToADK userId (200 :: restStatuses) creates st = ⟨AdkSendOutcome.reply, st, 0, 0⟩ := rfl

/-! ### Streaming-aggregator lemmas -/

theorem accumulate_inl_ne_empty :
    ∀ (events : List SseEvent) (acc r : String), accumulate events acc = Sum.inl r → r ≠ "" := by
  intro events
  induction events with
  | nil => intro acc r h; simp [accumulate] at h
  | cons e rest ih =>
    intro acc r h
    simp only [accumulate] at h
    by_cases hc : e.partialFlag ≠ some true ∧ stepText acc e ≠ ""
    · rw [if_pos hc] at h
      cases h
      exact hc.2
    · rw [if_neg hc] at h
      exact ih _ r h

theorem accumulate_append (pre rest : List SseEvent) :
    ∀ acc : String,
      accumulate (pre ++ rest) acc =
        match accumulate pre acc with
        | Sum.inl r => Sum.inl r
        | Sum.inr a => accumulate rest a := by
  induction pre with
  | nil => intro acc; simp [accumulate]
  | cons e pre ih =>
    intro acc
    simp only [List.cons_append, accumulate]
    by_cases hc : e.partialFlag ≠ some true ∧ stepText acc e ≠ ""
    · rw [if_pos hc, if_pos hc]
    · rw [if_neg hc, if_neg hc]
      exact ih _

/-- C1 counterexample: a backend whose submissions fault twice (HTTP 500)
and then succeed, with session creation succeeding each time.  The
dispatcher performs TWO session replacements and resolves with the reply —
not exactly one replacement followed by a terminal failure message. -/
theorem c1_second_fault_two_replacements :
    (sendToADK "u" [500, 500, 200] [some "s2", some "s3"]
        ⟨[("u", "s1")], [("u", "s1")]⟩).replaceCount = 2 ∧
    (sendToADK "u" [500, 500, 200] [some "s2", some "s3"]
        ⟨[("u", "s1")], [("u", "s1")]⟩).outcome = AdkSendOutcome.reply ∧
    AdkSendOutcome.reply ≠ AdkSendOutcome.serviceIssueMessage := by
  decide

/-- C1 (amended): the 500-handler retries recursively with no retry budget.
For every run of `n` consecutive session faults with successful session
creations followed by a success, the dispatcher performs `n` replacements
and resolves with the reply; the terminal user-facing failure message is
produced exactly when `createADKSession` itself fails (and then no further
retry happens); a non-500 first status performs no replacement at all. -/
theorem c1_retry_unbounded :
    (∀ (userId : String) (sids : List String) (st : DispatchState),
       (sendToADK userId (List.replicate sids.length 500 ++ [200]) (sids.map some) st).outcome =
           AdkSendOutcome.reply ∧
       (sendToADK userId (List.replicate sids.length 500 ++ [200]) (sids.map some) st).replaceCount =
           sids.length) ∧
    (∀ (userId : String) (statuses : List Nat) (creates : List (Option String)) (st : DispatchState),
       sendToADK userId (500 :: statuses) (none :: creates) st =
         ⟨AdkSendOutcome.serviceIssueMessage, st, 0, 1⟩) ∧
    (∀ (userId : String) (status : Nat) (statuses : List Nat) (creates : List (Option String))
       (st : DispatchState), status ≠ 500 →
       (sendToADK userId (status :: statuses) creates st).replaceCount = 0) := by
  refine ⟨?_, ?_, ?_⟩
  · intro userId sids
    induction sids with
    | nil => intro st; exact ⟨rfl, rfl⟩
    | cons s sids ih =>
      intro st
      simp only [List.length_cons, List.replicate_succ, List.map_cons, List.cons_append,
        sendToADK_fault_step]
      exact ⟨(ih _).1, by rw [(ih _).2]⟩
  · intro userId statuses creates st
    rfl
  · intro userId status statuses creates st h
    by_cases h2 : status = 200 <;> simp [sendToADK, h, h2]

/-- C1 witness: the unbounded-retry statement at a concrete input (three
faults, then success: three replacements and a delivered reply). -/
theorem c1_retry_unbounded_witness :
    (sendToADK "u" (List.replicate 3 500 ++ [200]) (["a", "b", "c"].map some)
        ⟨[("u", "s1")], [("u", "s1")]⟩).outcome = AdkSendOutcome.reply ∧
    (sendToADK "u" (List.replicate 3 500 ++ [200]) (["a", "b", "c"].map some)
        ⟨[("u", "s1")], [("u", "s1")]⟩).replaceCount = 3 :=
  c1_retry_unbounded.1 "u" ["a", "b", "c"] ⟨[("u", "s1")], [("u", "s1")]⟩

/-- C3 counterexample: the first fragment with `isPartial = false` does NOT
always finalize and stop the stream.  With a final fragment carrying no
text, the loop keeps reading: a later partial fragment changes the
delivered text from the fallback apology to its own text. -/
theorem c3_final_fragment_without_text_keeps_reading :
    streamOutcome [⟨none, some false⟩, ⟨some [⟨some "x", false⟩], some true⟩] StreamEnd.ended = "x" ∧
    streamOutcome [⟨none, some false⟩] StreamEnd.ended ≠ "x" ∧
    (⟨none, some false⟩ : SseEvent).partialFlag = some false := by
  decide

/-- C3 (amended): each non-null fragment text replaces (not appends to) the
running text, and the first fragment whose `partial` field is not `true`
finalizes immediately with the running text and ignores all later stream
data — provided the running text is nonempty at that point (the fragment's
own text counts).  In particular the fragment sequence
He / Hello / Hello world(final) finalizes to exactly the last text. -/
theorem c3_replacement_and_early_finalize :
    (∀ (pre : List SseEvent) (e : SseEvent) (post : List SseEvent) (acc : String) (term : StreamEnd),
       accumulate pre "" = Sum.inr acc →
       e.partialFlag ≠ some true →
       stepText acc e ≠ "" →
       streamOutcome (pre ++ e :: post) term = stepText acc e) ∧
    (∀ term : StreamEnd,
       streamOutcome
         [⟨some [⟨some "He", false⟩], some true⟩,
          ⟨some [⟨some "Hello", false⟩], some true⟩,
          ⟨some [⟨some "Hello world", false⟩], some false⟩] term = "Hello world") := by
  constructor
  · intro pre e post acc term hpre hflag htext
    simp only [streamOutcome, accumulate_append, hpre, accumulate]
    rw [if_pos ⟨hflag, htext⟩]
  · intro term
    cases term <;> decide

/-- C3 witness: the amended finalization rule at a concrete input — a final
fragment with text finalizes at once and a junk fragment queued behind it is
never read. -/
theorem c3_replacement_and_early_finalize_witness :
    streamOutcome
      [(⟨some [⟨some "Hello world", false⟩], some false⟩ : SseEvent),
       ⟨some [⟨some "IGNORED", false⟩], some true⟩] StreamEnd.ended = "Hello world" :=
  c3_replacement_and_early_finalize.1 [] ⟨some [⟨some "Hello world", false⟩], some false⟩
    [⟨some [⟨some "IGNORED", false⟩], some true⟩] "" StreamEnd.ended (by decide) (by decide)
    (by decide)

/-- C5 counterexample: after a 500-triggered session replacement the
in-memory cache holds the new session id but the durable mapping still
holds the old one — the replacement does not survive a restart. -/
theorem c5_durable_mapping_not_overwritten :
    (sendToADK "u" [500, 200] [some "s2"] ⟨[("u", "s1")], [("u", "s1")]⟩).outcome =
        AdkSendOutcome.reply ∧
    List.lookup "u"
        (sendToADK "u" [500, 200] [some "s2"] ⟨[("u", "s1")], [("u", "s1")]⟩).state.cache =
      some "s2" ∧
    List.lookup "u"
        (sendToADK "u" [500, 200] [some "s2"] ⟨[("u", "s1")], [("u", "s1")]⟩).state.durable =
      some "s1" ∧
    ("s1" : String) ≠ "s2" := by
  decide

/-- C5 (amended): the fault-recovery path overwrites only the in-memory
cache entry with the new backend session id; the durable session mapping is
never written by `sendToADK`, so it still holds the old id afterwards. -/
theorem c5_only_cache_updated :
    (∀ (userId : String) (statuses : List Nat) (creates : List (Option String))
       (st : DispatchState),
       (sendToADK userId statuses creates st).state.durable = st.durable) ∧
    (∀ (userId newSid : String) (rest : List Nat) (creates : List (Option String))
       (st : DispatchState), List.lookup userId st.cache ≠ none →
       List.lookup userId
           (sendToADK userId (500 :: 200 :: rest) (some newSid :: creates) st).state.cache =
         some newSid) := by
  constructor
  · intro userId statuses
    induction statuses with
    | nil => intro creates st; rfl
    | cons status rest ih =>
      intro creates st
      by_cases h5 : status = 500
      · subst h5
        cases creates with
        | nil => rfl
        | cons c creates' =>
          cases c with
          | none => rfl
          | some nid =>
            simp only [sendToADK, if_pos rfl]
            exact ih _ _
      · by_cases h2 : status = 200 <;> simp [sendToADK, h5, h2]
  · intro userId newSid rest creates st h
    simp only [sendToADK_fault_step, sendToADK_success_step]
    rw [lookup_cacheReplace]
    cases hl : List.lookup userId st.cache with
    | none => exact absurd hl h
    | some v => rfl

/-- C5 witness: the amended statement at a concrete input. -/
theorem c5_only_cache_updated_witness :
    (sendToADK "u" [500, 404] [some "s9"] ⟨[("u", "s1")], [("u", "s1")]⟩).state.durable =
        ([("u", "s1")] : List (String × String)) ∧
    List.lookup "u"
        (sendToADK "u" (500 :: 200 :: []) (some "s7" :: [])
          ⟨[("u", "s1")], [("u", "s1")]⟩).state.cache = some "s7" :=
  ⟨c5_only_cache_updated.1 "u" [500, 404] [some "s9"] ⟨[("u", "s1")], [("u", "s1")]⟩,
   c5_only_cache_updated.2 "u" "s7" [] [] ⟨[("u", "s1")], [("u", "s1")]⟩ (by decide)⟩

/-- C6 counterexample: for a never-seen user, the second resolution is
served from the in-memory cache entry created by the first and still
reports `isReturningUser = false`, not `true` (the session id is the same
both times). -/
theorem c6_second_resolution_not_returning :
    (resolveSession ⟨[], []⟩ "u" (some "s1")).1 = some ⟨"s1", false⟩ ∧
    (resolveSession ((resolveSession ⟨[], []⟩ "u" (some "s1")).2) "u" (some "s2")).1 =
      some ⟨"s1", false⟩ ∧
    (resolveSession ((resolveSession ⟨[], []⟩ "u" (some "s1")).2) "u" (some "s2")).1 ≠
      some ⟨"s1", true⟩ := by
  decide

/-- C6 (amended): resolving twice for a never-seen user returns the same
backend session id both times, but reports `isReturningUser = false` both
times, because the second resolution hits the in-memory cache;
`isReturningUser = true` is reported only when the in-memory entry is
absent (eviction sweep or restart) and the durable mapping is found. -/
theorem c6_resolution_cache_semantics :
    ∀ (st : SessionState) (userId sid : String) (cr2 : Option String),
      List.lookup userId st.cache = none →
      List.lookup userId st.durable = none →
      (resolveSession st userId (some sid)).1 = some ⟨sid, false⟩ ∧
      (resolveSession (resolveSession st userId (some sid)).2 userId cr2).1 =
        some ⟨sid, false⟩ ∧
      (resolveSession (evictCache (resolveSession st userId (some sid)).2 userId) userId cr2).1 =
        some ⟨sid, true⟩ := by
  intro st userId sid cr2 hc hd
  have h1 : resolveSession st userId (some sid) =
      (some ⟨sid, false⟩, ⟨mapSet st.cache userId ⟨sid, false⟩, mapSet st.durable userId sid⟩) := by
    simp [resolveSession, hc, hd]
  refine ⟨by rw [h1], ?_, ?_⟩
  · rw [h1]
    simp [resolveSession, lookup_mapSet_self]
  · rw [h1]
    simp [resolveSession, evictCache, mapSet, lookup_filter_ne, List.lookup]

/-- C6 witness: the amended statement at a concrete input. -/
theorem c6_resolution_cache_semantics_witness :
    (resolveSession ⟨[], [("other", "z")]⟩ "u" (some "sA")).1 = some ⟨"sA", false⟩ ∧
    (resolveSession ((resolveSession ⟨[], [("other", "z")]⟩ "u" (some "sA")).2) "u" none).1 =
      some ⟨"sA", false⟩ ∧
    (resolveSession
        (evictCache ((resolveSession ⟨[], [("other", "z")]⟩ "u" (some "sA")).2) "u") "u" none).1 =
      some ⟨"sA", true⟩ :=
  c6_resolution_cache_semantics ⟨[], [("other", "z")]⟩ "u" "sA" none (by decide) (by decide)

/-- C8: a streamed turn never resolves to the empty string; when the
absolute timeout (defined as double the backend request timeout) fires on an
unresolved stream, the accumulated text is returned if nonempty and a fixed
timed-out message otherwise; when the stream ends unresolved, the last seen
text is returned if nonempty and a fixed apology otherwise. -/
theorem c8_timeout_and_end_degradation :
    (∀ (events : List SseEvent) (term : StreamEnd), streamOutcome events term ≠ "") ∧
    (∀ (events : List SseEvent) (acc : String), accumulate events "" = Sum.inr acc →
       (acc ≠ "" →
          streamOutcome events StreamEnd.timedOut = acc ∧
          streamOutcome events StreamEnd.ended = acc) ∧
       (acc = "" →
          streamOutcome events StreamEnd.timedOut =
            "Response timed out. Please try again with a shorter message." ∧
          streamOutcome events StreamEnd.ended =
            "I received your message, but the response was incomplete. Please try again.")) ∧
    (∀ t : Nat, streamingTimeoutMs t = 2 * t) := by
  refine ⟨?_, ?_, ?_⟩
  · intro events term
    unfold streamOutcome
    cases hacc : accumulate events "" with
    | inl r => exact accumulate_inl_ne_empty events "" r hacc
    | inr acc =>
      by_cases h : acc = ""
      · cases term <;> simp [h]
      · cases term <;> simp [h]
  · intro events acc hacc
    constructor
    · intro h
      unfold streamOutcome
      rw [hacc]
      exact ⟨by simp [h], by simp [h]⟩
    · intro h
      unfold streamOutcome
      rw [hacc]
      exact ⟨by simp [h], by simp [h]⟩
  · intro t
    simp [streamingTimeoutMs, Nat.mul_comm]

/-- C8 witness: the degradation rules at concrete inputs — a stream that
sends a partial fragment and then stalls returns that text on timeout, and
an empty stalled stream returns the fixed timed-out message. -/
theorem c8_timeout_and_end_degradation_witness :
    streamOutcome [(⟨some [⟨some "partial answer", false⟩], some true⟩ : SseEvent)]
        StreamEnd.timedOut = "partial answer" ∧
    streamOutcome ([] : List SseEvent) StreamEnd.timedOut =
      "Response timed out. Please try again with a shorter message." :=
  ⟨((c8_timeout_and_end_degradation.2.1 [⟨some [⟨some "partial answer", false⟩], some true⟩]
      "partial answer" (by decide)).1 (by decide)).1,
   ((c8_timeout_and_end_degradation.2.1 [] "" (by decide)).2 (by decide)).1⟩

/-- C10: whenever `loadArtifactBySession` finds the stored blob, the MIME
type it reports is computed from filename substring tests alone (`.jpg` or
`.jpeg`, then `.webp`, else `image/png`) and the payload is the stored
bytes base64-encoded; the version argument defaults to the sentinel `0`. -/
theorem c10_session_load_mime_and_base64 :
    (∀ (b : Bucket (List Nat)) (appName userId sessionId filename : String) (version : Nat)
       (img : LoadedImage),
       loadArtifactBySession b appName userId sessionId filename version = some img →
       img.mimeType =
           (if containsS filename ".jpg" || containsS filename ".jpeg" then "image/jpeg"
            else if containsS filename ".webp" then "image/webp"
            else "image/png") ∧
       ∃ bytes,
         bucketGet b
             (appName ++ "/" ++ userId ++ "/" ++ sessionId ++ "/" ++ filename ++ "/" ++
               decRepr version) = some bytes ∧
         img.data = base64Encode bytes) ∧
    (∀ (b : Bucket (List Nat)) (appName userId sessionId filename : String),
       loadArtifactBySession b appName userId sessionId filename =
         loadArtifactBySession b appName userId sessionId filename 0) := by
  constructor
  · intro b appName userId sessionId filename version img h
    simp only [loadArtifactBySession] at h
    cases hget : bucketGet b
        (appName ++ "/" ++ userId ++ "/" ++ sessionId ++ "/" ++ filename ++ "/" ++
          decRepr version) with
    | none => rw [hget] at h; exact absurd h (by simp)
    | some bytes =>
      rw [hget] at h
      have himg : img = ⟨mimeFromFilename filename, base64Encode bytes⟩ :=
        (Option.some.injEq _ _ ▸ h).symm
      subst himg
      exact ⟨by simp [mimeFromFilename], bytes, rfl, rfl⟩
  · intro b appName userId sessionId filename
    rfl

/-- C10 witness: the MIME rule and base64 payload at a concrete input. -/
theorem c10_session_load_mime_and_base64_witness :
    ("image/jpeg" : String) =
        (if containsS "photo.jpg" ".jpg" || containsS "photo.jpg" ".jpeg" then "image/jpeg"
         else if containsS "photo.jpg" ".webp" then "image/webp"
         else "image/png") ∧
    ∃ bytes,
      bucketGet [("app/u/sess/photo.jpg/0", [77, 78])]
          ("app" ++ "/" ++ "u" ++ "/" ++ "sess" ++ "/" ++ "photo.jpg" ++ "/" ++ decRepr 0) =
        some bytes ∧
      ("TU4=" : String) = base64Encode bytes :=
  c10_session_load_mime_and_base64.1 [("app/u/sess/photo.jpg/0", [77, 78])]
    "app" "u" "sess" "photo.jpg" 0 ⟨"image/jpeg", "TU4="⟩ (by decide)

/-! ### Version-numbering lemmas -/

theorem parseVersionSuffix_roundtrip (q : String) (n : Nat) :
    parseVersionSuffix (q ++ "/v" ++ decRepr n) = some n := by
  have hdata : (q ++ "/v" ++ decRepr n).data = (q.data ++ ['/', 'v']) ++ (decRepr n).data := by
    rw [String.data_append, String.data_append]
  have hrev : (q ++ "/v" ++ decRepr n).data.reverse =
      (decRepr n).data.reverse ++ 'v' :: '/' :: q.data.reverse := by
    rw [hdata, List.reverse_append]
    simp
  have halld : ∀ c ∈ (decRepr n).data.reverse, Char.isDigit c = true := fun c hc =>
    decRepr_all_digit n c (List.mem_reverse.mp hc)
  have htake :
      List.takeWhile Char.isDigit
          ((decRepr n).data.reverse ++ 'v' :: '/' :: q.data.reverse) =
        (decRepr n).data.reverse := by
    rw [takeWhile_append_all _ _ halld, List.takeWhile_cons]
    simp
  have hdrop :
      List.dropWhile Char.isDigit
          ((decRepr n).data.reverse ++ 'v' :: '/' :: q.data.reverse) =
        'v' :: '/' :: q.data.reverse := by
    rw [dropWhile_append_all _ _ halld, List.dropWhile_cons]
    simp
  have hnonempty : ((decRepr n).data.reverse).isEmpty = false := by
    cases hne : (decRepr n).data.reverse with
    | nil => exact absurd (List.reverse_eq_nil_iff.mp hne) (decRepr_ne_nil n)
    | cons a as => rfl
  simp only [parseVersionSuffix]
  rw [hrev, htake, hdrop, hnonempty]
  simp only [Bool.false_eq_true, if_false]
  rw [List.reverse_reverse, digitsVal_decRepr]

theorem foldl_max_range' : ∀ k : Nat, (List.range' 1 k).foldl max 0 = k := by
  intro k
  induction k with
  | zero => rfl
  | succ k ih =>
    rw [List.range'_concat, List.foldl_append]
    simp only [List.foldl_cons, List.foldl_nil, ih]
    omega

theorem listVersions_of_inv (b : Bucket ArtifactData) (appName userId filename sessionId : String)
    (k : Nat)
    (hA : (bucketFiles b (getArtifactPath appName userId filename sessionId ++ "/v")).map
        (fun e => parseVersionSuffix e.1) = (List.range' 1 k).map some) :
    listVersions b appName userId filename sessionId =
      sortLe (fun a b => Nat.ble a b) (List.range' 1 k) := by
  simp only [listVersions, hA]
  rw [show (List.filterMap id ((List.range' 1 k).map some)) = List.range' 1 k by
    rw [List.filterMap_map]
    exact List.filterMap_some _]

theorem saveArtifact_of_inv (b : Bucket ArtifactData) (appName userId filename sessionId : String)
    (part : AdkPart) (ts : String) (k : Nat)
    (hA : (bucketFiles b (getArtifactPath appName userId filename sessionId ++ "/v")).map
        (fun e => parseVersionSuffix e.1) = (List.range' 1 k).map some) :
    (saveArtifact b appName userId filename part sessionId ts).1 = k + 1 ∧
    (bucketFiles (saveArtifact b appName userId filename part sessionId ts).2
        (getArtifactPath appName userId filename sessionId ++ "/v")).map
        (fun e => parseVersionSuffix e.1) = (List.range' 1 (k + 1)).map some := by
  have hv := listVersions_of_inv b appName userId filename sessionId k hA
  have hnext :
      (if (listVersions b appName userId filename sessionId).length > 0 then
          (listVersions b appName userId filename sessionId).foldl max 0 + 1
        else 1) = k + 1 := by
    rw [hv]
    cases k with
    | zero => simp [sortLe]
    | succ k =>
      rw [if_pos (by rw [length_sortLe, List.length_range']; omega)]
      rw [foldl_max_sortLe, foldl_max_range']
  have hfresh : ∀ e ∈ b,
      e.1 ≠ getArtifactPath appName userId filename sessionId ++ "/v" ++ decRepr (k + 1) := by
    intro e he heq
    have hpref : startsWithS e.1
        (getArtifactPath appName userId filename sessionId ++ "/v") = true := by
      rw [heq]
      exact startsWithS_append _ _
    have hmem : e ∈ bucketFiles b (getArtifactPath appName userId filename sessionId ++ "/v") :=
      List.mem_filter.mpr ⟨he, hpref⟩
    have hparse : parseVersionSuffix e.1 ∈
        (bucketFiles b (getArtifactPath appName userId filename sessionId ++ "/v")).map
          (fun e => parseVersionSuffix e.1) := List.mem_map_of_mem _ hmem
    rw [hA, heq, parseVersionSuffix_roundtrip] at hparse
    obtain ⟨x, hx, hxeq⟩ := List.mem_map.mp hparse
    have hxv : x = k + 1 := Option.some.injEq _ _ ▸ hxeq
    subst hxv
    obtain ⟨i, hi, hieq⟩ := List.mem_range'.mp hx
    omega
  constructor
  · simp only [saveArtifact]
    exact hnext
  · simp only [saveArtifact, hnext, bucketPut]
    have herase :
        List.filter
            (fun e =>
              e.1 != getArtifactPath appName userId filename sessionId ++ "/v" ++ decRepr (k + 1))
            b = b :=
      List.filter_eq_self.mpr fun e he => bne_iff_ne.mpr (hfresh e he)
    rw [herase]
    simp only [bucketFiles, List.filter_append]
    have hnewpref : startsWithS
        (getArtifactPath appName userId filename sessionId ++ "/v" ++ decRepr (k + 1))
        (getArtifactPath appName userId filename sessionId ++ "/v") = true :=
      startsWithS_append _ _
    have hsingle : ∀ v : ArtifactData,
        List.filter
            (fun e =>
              startsWithS e.1 (getArtifactPath appName userId filename sessionId ++ "/v"))
            [(getArtifactPath appName userId filename sessionId ++ "/v" ++ decRepr (k + 1), v)] =
          [(getArtifactPath appName userId filename sessionId ++ "/v" ++ decRepr (k + 1), v)] := by
      intro v
      simp [List.filter_cons, hnewpref]
    have hAf := hA
    simp only [bucketFiles] at hAf
    rw [hsingle, List.map_append, hAf]
    rw [show List.range' 1 (k + 1) = List.range' 1 k ++ [1 + 1 * k] from List.range'_concat 1 k,
      List.map_append]
    simp only [List.map_cons, List.map_nil]
    rw [show (1 + 1 * k) = k + 1 by omega]
    rw [parseVersionSuffix_roundtrip]

/-- C4: for every sequence of N `saveArtifact` calls to the same logical key
with no concurrent interleaving, starting from a bucket with no object under
the key's version prefix, the assigned versions are exactly `1, 2, ..., N`
in call order (each computed as max(existing) + 1, or 1 when none exist). -/
theorem c4_save_versions_sequential :
    ∀ (b : Bucket ArtifactData) (appName userId filename sessionId : String)
      (inputs : List (AdkPart × String)),
      (∀ e ∈ b,
        startsWithS e.1 (getArtifactPath appName userId filename sessionId ++ "/v") = false) →
      (saveSeq b appName userId filename sessionId inputs).1 = List.range' 1 inputs.length := by
  intro b appName userId filename sessionId inputs h0
  suffices haux : ∀ (ins : List (AdkPart × String)) (bk : Bucket ArtifactData) (k : Nat),
      (bucketFiles bk (getArtifactPath appName userId filename sessionId ++ "/v")).map
          (fun e => parseVersionSuffix e.1) = (List.range' 1 k).map some →
      (saveSeq bk appName userId filename sessionId ins).1 = List.range' (k + 1) ins.length by
    have hbase : (bucketFiles b (getArtifactPath appName userId filename sessionId ++ "/v")).map
        (fun e => parseVersionSuffix e.1) = (List.range' 1 0).map some := by
      have : bucketFiles b (getArtifactPath appName userId filename sessionId ++ "/v") = [] :=
        List.filter_eq_nil_iff.mpr fun e he => by rw [h0 e he]; simp
      rw [this]
      rfl
    simpa using haux inputs b 0 hbase
  intro ins
  induction ins with
  | nil => intro bk k _; rfl
  | cons input rest ih =>
    intro bk k hA
    obtain ⟨hv, hA'⟩ :=
      saveArtifact_of_inv bk appName userId filename sessionId input.1 input.2 k hA
    simp only [saveSeq, List.length_cons, List.range'_succ]
    rw [hv, ih _ (k + 1) hA']

/-- C4 witness: three sequential saves into an empty bucket receive versions
1, 2, 3. -/
theorem c4_save_versions_sequential_witness :
    (saveSeq [] "app" "user" "report.pdf" "sess"
        [(⟨some "application/pdf", none, none, some (.str "QQ==")⟩, "t1"),
         (⟨some "application/pdf", none, none, some (.str "Qg==")⟩, "t2"),
         (⟨some "application/pdf", none, none, some (.str "Qw==")⟩, "t3")]).1 = [1, 2, 3] :=
  (c4_save_versions_sequential [] "app" "user" "report.pdf" "sess"
      [(⟨some "application/pdf", none, none, some (.str "QQ==")⟩, "t1"),
       (⟨some "application/pdf", none, none, some (.str "Qg==")⟩, "t2"),
       (⟨some "application/pdf", none, none, some (.str "Qw==")⟩, "t3")]
      (fun e he => absurd he (List.not_mem_nil e))).trans (by decide)

/-! ### Exact-filename loading (C7) -/

theorem bucketGet_eq_none_of_fresh (b : Bucket α) (path : String)
    (h : ∀ e ∈ b, e.1 ≠ path) : bucketGet b path = none := by
  simp only [bucketGet]
  rw [List.find?_eq_none.mpr]
  · rfl
  · intro e he
    simp [h e he]

/-- C7 counterexample: for an artifact saved under filename `report.pdf` at
version 3, `loadArtifact` succeeds only for the exact filename and returns
`none` for the version-suffixed variants the claim requires to succeed. -/
theorem c7_variant_filenames_fail :
    loadArtifact [("app/u/shared/report.pdf/v3",
        ⟨"application/pdf", some (.str "QUJD"), "t0", "report.pdf"⟩)] "app" "u" "report.pdf" =
      some ⟨some "application/pdf", some "application/pdf", some (.str "QUJD"),
        some (.str "QUJD")⟩ ∧
    loadArtifact [("app/u/shared/report.pdf/v3",
        ⟨"application/pdf", some (.str "QUJD"), "t0", "report.pdf"⟩)] "app" "u" "report.pdf v3" =
      none ∧
    loadArtifact [("app/u/shared/report.pdf/v3",
        ⟨"application/pdf", some (.str "QUJD"), "t0", "report.pdf"⟩)] "app" "u" "report.pdf_v3" =
      none ∧
    loadArtifact [("app/u/shared/report.pdf/v3",
        ⟨"application/pdf", some (.str "QUJD"), "t0", "report.pdf"⟩)] "app" "u" "report.pdf (3)" =
      none := by
  decide

/-- C7 (amended): `loadArtifact` performs no filename-variant stripping: it
consults only object paths under the exact requested filename, so a bucket
with no object under that filename's version prefix always yields `none`;
for an artifact saved under `report.pdf` at version 3, only the input
`report.pdf` resolves (the suffixed variants fall under the first part). -/
theorem c7_exact_filename_only :
    (∀ (b : Bucket ArtifactData) (appName userId filename : String) (version : Option Nat)
       (sessionId : String),
       (∀ e ∈ b,
         startsWithS e.1 (getArtifactPath appName userId filename sessionId ++ "/v") = false) →
       loadArtifact b appName userId filename version sessionId = none) ∧
    loadArtifact [("app/u/shared/report.pdf/v3",
        ⟨"application/pdf", some (.str "QUJD"), "t0", "report.pdf"⟩)] "app" "u" "report.pdf" =
      some ⟨some "application/pdf", some "application/pdf", some (.str "QUJD"),
        some (.str "QUJD")⟩ := by
  constructor
  · intro b appName userId filename version sessionId h
    have hfiles : bucketFiles b (getArtifactPath appName userId filename sessionId ++ "/v") = [] :=
      List.filter_eq_nil_iff.mpr fun e he => by rw [h e he]; simp
    have hlv : listVersions b appName userId filename sessionId = [] := by
      simp [listVersions, hfiles, sortLe]
    have hget : ∀ v : Nat,
        bucketGet b (getArtifactPath appName userId filename sessionId ++ "/v" ++ decRepr v) =
          none := by
      intro v
      apply bucketGet_eq_none_of_fresh
      intro e he heq
      have : startsWithS e.1 (getArtifactPath appName userId filename sessionId ++ "/v") = true := by
        rw [heq]
        exact startsWithS_append _ _
      rw [h e he] at this
      exact Bool.false_ne_true this
    match version with
    | none => simp [loadArtifact, hlv]
    | some 0 => simp [loadArtifact, hlv]
    | some (v + 1) => simp [loadArtifact, hget (v + 1)]
  · decide

/-- C7 witness: the no-stripping statement applied at a concrete input — a
variant filename owns no object path, so its load yields `none`. -/
theorem c7_exact_filename_only_witness :
    loadArtifact [("app/u/shared/report.pdf/v3",
        ⟨"application/pdf", some (.str "QUJD"), "t0", "report.pdf"⟩)] "app" "u" "report.pdf v3"
      none "shared" = none :=
  c7_exact_filename_only.1
    [("app/u/shared/report.pdf/v3",
      ⟨"application/pdf", some (.str "QUJD"), "t0", "report.pdf"⟩)]
    "app" "u" "report.pdf v3" none "shared" (by decide)

/-! ### Cross-convention listing (C2) -/

theorem mem_setAdd (acc : List String) (x y : String) :
    y ∈ setAdd acc x ↔ y ∈ acc ∨ y = x := by
  by_cases h : x ∈ acc
  · simp only [setAdd, if_pos h]
    constructor
    · exact Or.inl
    · rintro (hy | rfl)
      · exact hy
      · exact h
  · simp [setAdd, if_neg h]

theorem mem_foldl_considerName (userPath : String) :
    ∀ (names : List String) (init : List String) (fn : String),
      fn ∈ names.foldl (considerName userPath) init ↔
        fn ∈ init ∨ ∃ name ∈ names, legacyKeyOf userPath name = some fn := by
  intro names
  induction names with
  | nil => intro init fn; simp
  | cons name names ih =>
    intro init fn
    simp only [List.foldl_cons, ih, List.mem_cons]
    constructor
    · rintro (hinit | ⟨nm, hnm, hkey⟩)
      · unfold considerName at hinit
        cases hkey : legacyKeyOf userPath name with
        | none => rw [hkey] at hinit; exact Or.inl hinit
        | some p0 =>
          rw [hkey] at hinit
          rcases (mem_setAdd init p0 fn).mp hinit with h | rfl
          · exact Or.inl h
          · exact Or.inr ⟨name, Or.inl rfl, hkey⟩
      · exact Or.inr ⟨nm, Or.inr hnm, hkey⟩
    · rintro (hinit | ⟨nm, hnm | hnm, hkey⟩)
      · left
        unfold considerName
        cases hkey : legacyKeyOf userPath name with
        | none => exact hinit
        | some p0 => exact (mem_setAdd init p0 fn).mpr (Or.inl hinit)
      · subst hnm
        left
        unfold considerName
        rw [hkey]
        exact (mem_setAdd init fn fn).mpr (Or.inr rfl)
      · exact Or.inr ⟨nm, hnm, hkey⟩

theorem splitChar_sep_append (sep : Char) :
    ∀ (xs ys : List Char), sep ∉ xs →
      splitChar sep (xs ++ sep :: ys) = xs :: splitChar sep ys := by
  intro xs ys h
  induction xs with
  | nil => simp [splitChar]
  | cons c xs ih =>
    have hc : c ≠ sep := fun hcc => h (hcc ▸ List.mem_cons_self c xs)
    have hxs : sep ∉ xs := fun hmem => h (List.mem_cons_of_mem c hmem)
    simp only [List.cons_append, splitChar, if_neg hc]
    show (match splitChar sep (xs ++ sep :: ys) with
      | [] => [[c]]
      | g :: gs => (c :: g) :: gs) = (c :: xs) :: splitChar sep ys
    rw [ih hxs]

theorem splitChar_no_sep (sep : Char) :
    ∀ zs : List Char, sep ∉ zs → splitChar sep zs = [zs] := by
  intro zs h
  induction zs with
  | nil => rfl
  | cons c zs ih =>
    have hc : c ≠ sep := fun hcc => h (hcc ▸ List.mem_cons_self c zs)
    have hzs : sep ∉ zs := fun hmem => h (List.mem_cons_of_mem c hmem)
    simp only [splitChar, if_neg hc, ih hzs]

theorem legacyKeyOf_append (userPath rest : String) :
    legacyKeyOf userPath (userPath ++ rest) =
      match splitSlash rest with
      | p0 :: p1 :: _ => if startsWithS p1 "v" then some p0 else none
      | _ => none := by
  unfold legacyKeyOf strDrop strLen
  rw [String.data_append, List.drop_left]

theorem legacyKeyOf_legacy_write (userPath fn : String) (ver : Nat) (hslash : '/' ∉ fn.data) :
    legacyKeyOf userPath (userPath ++ (fn ++ ("/v" ++ decRepr ver))) = some fn := by
  rw [legacyKeyOf_append]
  have hdata : (fn ++ ("/v" ++ decRepr ver)).data =
      fn.data ++ '/' :: ('v' :: (decRepr ver).data) := by
    rw [String.data_append, String.data_append]
    rfl
  unfold splitSlash
  rw [hdata, splitChar_sep_append '/' fn.data ('v' :: (decRepr ver).data) hslash]
  have hnodig : '/' ∉ 'v' :: (decRepr ver).data := by
    intro hc
    rcases List.mem_cons.mp hc with hc | hc
    · exact absurd hc.symm (by decide)
    · exact decRepr_no_slash ver '/' hc rfl
  rw [splitChar_no_sep '/' _ hnodig]
  simp only [List.map_cons, List.map_nil]
  have hsw : startsWithS ⟨'v' :: (decRepr ver).data⟩ "v" = true := by
    simp only [startsWithS]
    exact List.isPrefixOf_iff_prefix.mpr ⟨(decRepr ver).data, rfl⟩
  rw [if_pos hsw]

theorem legacyKeyOf_session_write (userPath sess fn : String) (ver : Nat)
    (hsess : '/' ∉ sess.data) (hfn : '/' ∉ fn.data) (hv : startsWithS fn "v" = false) :
    legacyKeyOf userPath (userPath ++ (sess ++ ("/" ++ (fn ++ ("/" ++ decRepr ver))))) = none := by
  rw [legacyKeyOf_append]
  have hdata : (sess ++ ("/" ++ (fn ++ ("/" ++ decRepr ver)))).data =
      sess.data ++ '/' :: (fn.data ++ '/' :: (decRepr ver).data) := by
    rw [String.data_append, String.data_append, String.data_append, String.data_append]
    rfl
  unfold splitSlash
  rw [hdata, splitChar_sep_append '/' sess.data _ hsess,
    splitChar_sep_append '/' fn.data _ hfn,
    splitChar_no_sep '/' _ (fun hc => decRepr_no_slash ver '/' hc rfl)]
  simp only [List.map_cons, List.map_nil]
  rw [if_neg]
  intro hvv
  have hfneq : (⟨fn.data⟩ : String) = fn := rfl
  rw [hfneq] at hvv
  rw [hv] at hvv
  exact Bool.false_ne_true hvv

/-- C2 counterexample: with one artifact written under the legacy flat
convention (`{folder}/{app}/{user}/{filename}/v{version}`) and one written
under the session-scoped convention
(`{folder}/{app}/{user}/{sessionId}/{filename}/{version}`) for the same
user, the listing returns only the legacy filename — not the union. -/
theorem c2_session_scoped_artifact_missing_from_listing :
    "report.pdf" ∈ listArtifactKeys
        [("artifacts/app/u/report.pdf/v1", (0 : Nat)),
         ("artifacts/app/u/sess1/photo.png/1", 0)] "artifacts" "app" "u" ∧
    "photo.png" ∉ listArtifactKeys
        [("artifacts/app/u/report.pdf/v1", (0 : Nat)),
         ("artifacts/app/u/sess1/photo.png/1", 0)] "artifacts" "app" "u" := by
  decide

/-- C2 (amended): the filename listing contains exactly the first path
segments (relative to `{folder}/{app}/{user}/`) of stored objects whose
second segment starts with `v` — i.e. writes in the legacy flat shape.  A
legacy write `{userPath}{filename}/v{version}` is always listed; a
session-scoped write `{userPath}{sessionId}/{filename}/{version}` alone
contributes nothing whenever its filename does not itself start with
`v`. -/
theorem c2_listing_is_legacy_shape_only :
    (∀ (α : Type) (b : Bucket α) (folder appName userId fn : String),
       fn ∈ listArtifactKeys b folder appName userId ↔
         ∃ e ∈ b,
           startsWithS e.1 (folder ++ "/" ++ appName ++ "/" ++ userId ++ "/") = true ∧
           legacyKeyOf (folder ++ "/" ++ appName ++ "/" ++ userId ++ "/") e.1 = some fn) ∧
    (∀ (α : Type) (b : Bucket α) (folder appName userId fn : String) (v : α) (ver : Nat),
       '/' ∉ fn.data →
       ((folder ++ "/" ++ appName ++ "/" ++ userId ++ "/") ++ (fn ++ ("/v" ++ decRepr ver)), v)
           ∈ b →
       fn ∈ listArtifactKeys b folder appName userId) ∧
    (∀ (α : Type) (folder appName userId sess fn : String) (v : α) (ver : Nat),
       '/' ∉ sess.data → '/' ∉ fn.data → startsWithS fn "v" = false →
       listArtifactKeys
           [((folder ++ "/" ++ appName ++ "/" ++ userId ++ "/") ++
               (sess ++ ("/" ++ (fn ++ ("/" ++ decRepr ver)))), v)] folder appName userId = []) := by
  have hchar :
      ∀ (α : Type) (b : Bucket α) (folder appName userId fn : String),
        fn ∈ listArtifactKeys b folder appName userId ↔
          ∃ e ∈ b,
            startsWithS e.1 (folder ++ "/" ++ appName ++ "/" ++ userId ++ "/") = true ∧
            legacyKeyOf (folder ++ "/" ++ appName ++ "/" ++ userId ++ "/") e.1 = some fn := by
    intro α b folder appName userId fn
    unfold listArtifactKeys
    rw [mem_sortLe]
    rw [show (bucketFiles b (folder ++ "/" ++ appName ++ "/" ++ userId ++ "/")).foldl
          (fun acc e => considerName (folder ++ "/" ++ appName ++ "/" ++ userId ++ "/") acc e.1)
          [] =
        ((bucketFiles b (folder ++ "/" ++ appName ++ "/" ++ userId ++ "/")).map
          (fun e => e.1)).foldl
          (considerName (folder ++ "/" ++ appName ++ "/" ++ userId ++ "/")) [] by
      rw [List.foldl_map]]
    rw [mem_foldl_considerName]
    constructor
    · rintro (hinit | ⟨name, hname, hkey⟩)
      · exact absurd hinit (List.not_mem_nil fn)
      · obtain ⟨e, he, heq⟩ := List.mem_map.mp hname
        subst heq
        exact ⟨e, (List.mem_filter.mp he).1, (List.mem_filter.mp he).2, hkey⟩
    · rintro ⟨e, he, hpre, hkey⟩
      refine Or.inr ⟨e.1, ?_, hkey⟩
      exact List.mem_map_of_mem _ (List.mem_filter.mpr ⟨he, hpre⟩)
  refine ⟨hchar, ?_, ?_⟩
  · intro α b folder appName userId fn v ver hslash hmem
    exact (hchar α b folder appName userId fn).mpr
      ⟨_, hmem, startsWithS_append _ _,
        legacyKeyOf_legacy_write (folder ++ "/" ++ appName ++ "/" ++ userId ++ "/") fn ver hslash⟩
  · intro α folder appName userId sess fn v ver hsess hfn hv
    rcases hempty : listArtifactKeys
        [((folder ++ "/" ++ appName ++ "/" ++ userId ++ "/") ++
            (sess ++ ("/" ++ (fn ++ ("/" ++ decRepr ver)))), v)] folder appName userId with
      _ | ⟨x, rest⟩
    · rfl
    · exfalso
      have hx : x ∈ listArtifactKeys
          [((folder ++ "/" ++ appName ++ "/" ++ userId ++ "/") ++
              (sess ++ ("/" ++ (fn ++ ("/" ++ decRepr ver)))), v)] folder appName userId := by
        rw [hempty]
        exact List.mem_cons_self x rest
      rcases (hchar α _ folder appName userId x).mp hx with ⟨e, he, _, hkey2⟩
      rcases List.mem_singleton.mp he with rfl
      rw [legacyKeyOf_session_write (folder ++ "/" ++ appName ++ "/" ++ userId ++ "/")
        sess fn ver hsess hfn hv] at hkey2
      exact Option.noConfusion hkey2

/-- C2 witness: the amended statement at concrete inputs — a legacy write is
listed; a lone session-scoped write yields an empty listing. -/
theorem c2_listing_is_legacy_shape_only_witness :
    "report.pdf" ∈ listArtifactKeys
        [(("artifacts" ++ "/" ++ "app" ++ "/" ++ "u" ++ "/") ++
            ("report.pdf" ++ ("/v" ++ decRepr 1)), (0 : Nat))] "artifacts" "app" "u" ∧
    listArtifactKeys
        [(("artifacts" ++ "/" ++ "app" ++ "/" ++ "u" ++ "/") ++
            ("sess1" ++ ("/" ++ ("photo.png" ++ ("/" ++ decRepr 1)))), (0 : Nat))]
        "artifacts" "app" "u" = [] :=
  ⟨c2_listing_is_legacy_shape_only.2.1 Nat
      [(("artifacts" ++ "/" ++ "app" ++ "/" ++ "u" ++ "/") ++
          ("report.pdf" ++ ("/v" ++ decRepr 1)), 0)] "artifacts" "app" "u" "report.pdf" 0 1
      (by decide) (List.mem_singleton.mpr rfl),
   c2_listing_is_legacy_shape_only.2.2 Nat "artifacts" "app" "u" "sess1" "photo.png" 0 1
      (by decide) (by decide) (by decide)⟩

/-! ### Media conversion (C9) -/

theorem listReplaceFirst_boundary (pat repl : List Char) (hne : pat ≠ [])
    (hself : ∀ k, 0 < k → k < pat.length → pat.drop k ≠ pat.take (pat.length - k)) :
    ∀ base : List Char, containsSeg pat base = false →
      listReplaceFirst pat repl (base ++ pat) = base ++ repl := by
  intro base
  induction base with
  | nil =>
    intro _
    cases pat with
    | nil => exact absurd rfl hne
    | cons p ps =>
      show listReplaceFirst (p :: ps) repl (p :: ps) = repl
      unfold listReplaceFirst
      rw [if_pos (List.isPrefixOf_iff_prefix.mpr (List.prefix_refl _))]
      rw [show List.drop (p :: ps).length (p :: ps) = [] from List.drop_length _,
        List.append_nil]
  | cons c b' ih =>
    intro hinf
    have hsplit : pat.isPrefixOf (c :: b') = false ∧ containsSeg pat b' = false := by
      simp only [containsSeg] at hinf
      exact ⟨(Bool.or_eq_false_iff.mp hinf).1, (Bool.or_eq_false_iff.mp hinf).2⟩
    show listReplaceFirst pat repl (c :: (b' ++ pat)) = c :: (b' ++ repl)
    unfold listReplaceFirst
    rw [if_neg ?hcond, ih hsplit.2]
    case hcond =>
      intro hpre
      have hp : pat <+: (c :: b') ++ pat := List.isPrefixOf_iff_prefix.mp hpre
      have htake := List.prefix_iff_eq_take.mp hp
      rw [List.take_append_eq_append_take] at htake
      by_cases hlen : pat.length ≤ (c :: b').length
      · have h0 : pat.length - (c :: b').length = 0 := by omega
        rw [h0, List.take_zero, List.append_nil] at htake
        have hppre : pat <+: (c :: b') := htake ▸ List.take_prefix _ _
        have := List.isPrefixOf_iff_prefix.mpr hppre
        rw [hsplit.1] at this
        exact Bool.false_ne_true this
      · push_neg at hlen
        have htk : List.take pat.length (c :: b') = c :: b' :=
          List.take_of_length_le (by omega)
        rw [htk] at htake
        have hdrop : pat.drop (c :: b').length =
            List.take (pat.length - (c :: b').length) pat := by
          conv_lhs => rw [htake]
          rw [List.drop_left]
        exact hself (c :: b').length (by simp) (by omega) hdrop

theorem xlsx_pat_no_self_overlap :
    ∀ k, 0 < k → k < (".xlsx".data).length →
      (".xlsx".data).drop k ≠ (".xlsx".data).take ((".xlsx".data).length - k) := by
  intro k h1 h2
  have h5 : (".xlsx".data).length = 5 := rfl
  rw [h5] at h2
  interval_cases k <;> decide

theorem docx_pat_no_self_overlap :
    ∀ k, 0 < k → k < (".docx".data).length →
      (".docx".data).drop k ≠ (".docx".data).take ((".docx".data).length - k) := by
  intro k h1 h2
  have h5 : (".docx".data).length = 5 := rfl
  rw [h5] at h2
  interval_cases k <;> decide

theorem replaceFirst_ext_boundary (base : String) (pat repl : String) (hne : pat.data ≠ [])
    (hself : ∀ k, 0 < k → k < (pat.data).length →
      (pat.data).drop k ≠ (pat.data).take ((pat.data).length - k))
    (hinf : containsS base pat = false) :
    replaceFirst (base ++ pat) pat repl = base ++ repl := by
  unfold replaceFirst
  rw [String.data_append,
    listReplaceFirst_boundary pat.data repl.data hne hself base.data hinf]
  rfl

theorem convertXlsxToText_join (sheets : List Worksheet) :
    convertXlsxToText sheets =
      strJoin ((sheets.enum).map fun p =>
        "\n=== Sheet " ++ decRepr (p.1 + 1) ++ ": " ++ p.2.name ++ " ===\n" ++ p.2.csv ++ "\n") := by
  unfold convertXlsxToText
  rw [show (fun (acc : String) (p : Nat × Worksheet) =>
        acc ++ "\n=== Sheet " ++ decRepr (p.1 + 1) ++ ": " ++ p.2.name ++ " ===\n" ++
          p.2.csv ++ "\n") =
      (fun (acc : String) (p : Nat × Worksheet) =>
        acc ++ ("\n=== Sheet " ++ decRepr (p.1 + 1) ++ ": " ++ p.2.name ++ " ===\n" ++
          p.2.csv ++ "\n")) by
    funext acc p
    simp [String.append_assoc]]
  rw [foldl_append_strJoin]
  rfl

theorem convertXlsx_header_present (sheets : List Worksheet) (i : Nat) (ws : Worksheet)
    (hmem : (i, ws) ∈ sheets.enum) :
    ∃ A B, convertXlsxToText sheets =
      A ++ ("=== Sheet " ++ decRepr (i + 1) ++ ": " ++ ws.name ++ " ===") ++ B := by
  obtain ⟨l1, l2, hsplit⟩ := List.append_of_mem hmem
  refine ⟨strJoin (l1.map fun p =>
      "\n=== Sheet " ++ decRepr (p.1 + 1) ++ ": " ++ p.2.name ++ " ===\n" ++ p.2.csv ++ "\n") ++
        "\n",
    "\n" ++ ws.csv ++ "\n" ++ strJoin (l2.map fun p =>
      "\n=== Sheet " ++ decRepr (p.1 + 1) ++ ": " ++ p.2.name ++ " ===\n" ++ p.2.csv ++ "\n"),
    ?_⟩
  rw [convertXlsxToText_join, hsplit, List.map_append, strJoin_append, List.map_cons]
  show _ ++ ("\n=== Sheet " ++ decRepr (i + 1) ++ ": " ++ ws.name ++ " ===\n" ++ ws.csv ++ "\n" ++
      strJoin _) = _
  simp only [String.append_assoc]
  rfl

/-- C9 counterexample: a spreadsheet whose filename carries the `.xlsx`
marker twice converts with `converted = true` and `text/plain`, but the
output filename is `report.txt.xlsx` — the first occurrence was replaced,
and the extension is still `.xlsx`, not `.txt`. -/
theorem c9_extension_not_always_rewritten :
    (processMediaMessage [] "app" "u" "sess"
        ⟨xlsxMime, "report.xlsx.xlsx", [80], [⟨"Sheet1", "a,b"⟩], ""⟩ "t").1.converted = true ∧
    (processMediaMessage [] "app" "u" "sess"
        ⟨xlsxMime, "report.xlsx.xlsx", [80], [⟨"Sheet1", "a,b"⟩], ""⟩ "t").1.mimeType =
      "text/plain" ∧
    (processMediaMessage [] "app" "u" "sess"
        ⟨xlsxMime, "report.xlsx.xlsx", [80], [⟨"Sheet1", "a,b"⟩], ""⟩ "t").1.filename =
      "report.txt.xlsx" ∧
    List.isSuffixOf ".txt".data "report.txt.xlsx".data = false ∧
    List.isSuffixOf ".xlsx".data "report.txt.xlsx".data = true := by
  decide

/-- C9 (amended): exactly the two Office MIME types convert — the output is
`text/plain`, `converted = true`, `originalFormat` names the source format,
and the payload is the extracted text (for a spreadsheet, one header line
per sheet in workbook order followed by its CSV rendering); every other
MIME type passes its payload through unchanged with no conversion fields.
The filename rewrite replaces the FIRST occurrence of the source extension
with `.txt`, which rewrites the extension exactly when the marker occurs
only once, at the end. -/
theorem c9_conversion_dispatch :
    (∀ (b : Bucket ArtifactData) (appName userId sessionId : String) (m : MediaInput)
       (ts : String),
       ((processMediaMessage b appName userId sessionId m ts).1.converted = true ↔
          (m.mimeType = xlsxMime ∨ m.mimeType = docxMime)) ∧
       (m.mimeType = xlsxMime →
          (processMediaMessage b appName userId sessionId m ts).1.mimeType = "text/plain" ∧
          (processMediaMessage b appName userId sessionId m ts).1.originalFormat = some "XLSX" ∧
          (processMediaMessage b appName userId sessionId m ts).1.partData =
            PayloadData.str (convertXlsxToText m.xlsxSheets)) ∧
       (m.mimeType = docxMime →
          (processMediaMessage b appName userId sessionId m ts).1.mimeType = "text/plain" ∧
          (processMediaMessage b appName userId sessionId m ts).1.originalFormat = some "DOCX" ∧
          (processMediaMessage b appName userId sessionId m ts).1.partData =
            PayloadData.str m.docxText) ∧
       (m.mimeType ≠ xlsxMime → m.mimeType ≠ docxMime →
          (processMediaMessage b appName userId sessionId m ts).1.filename = m.filename ∧
          (processMediaMessage b appName userId sessionId m ts).1.mimeType = m.mimeType ∧
          (processMediaMessage b appName userId sessionId m ts).1.partData =
            PayloadData.buf m.bytes ∧
          (processMediaMessage b appName userId sessionId m ts).1.converted = false ∧
          (processMediaMessage b appName userId sessionId m ts).1.originalFormat = none)) ∧
    (∀ (b : Bucket ArtifactData) (appName userId sessionId : String) (m : MediaInput)
       (ts : String) (base : String),
       m.mimeType = xlsxMime → m.filename = base ++ ".xlsx" → containsS base ".xlsx" = false →
       (processMediaMessage b appName userId sessionId m ts).1.filename = base ++ ".txt") ∧
    (∀ (b : Bucket ArtifactData) (appName userId sessionId : String) (m : MediaInput)
       (ts : String) (base : String),
       m.mimeType = docxMime → m.filename = base ++ ".docx" → containsS base ".docx" = false →
       (processMediaMessage b appName userId sessionId m ts).1.filename = base ++ ".txt") ∧
    (∀ sheets : List Worksheet,
       convertXlsxToText sheets =
         strJoin ((sheets.enum).map fun p =>
           "\n=== Sheet " ++ decRepr (p.1 + 1) ++ ": " ++ p.2.name ++ " ===\n" ++
             p.2.csv ++ "\n")) ∧
    (∀ (sheets : List Worksheet) (i : Nat) (ws : Worksheet), (i, ws) ∈ sheets.enum →
       ∃ A B, convertXlsxToText sheets =
         A ++ ("=== Sheet " ++ decRepr (i + 1) ++ ": " ++ ws.name ++ " ===") ++ B) := by
  have hmime : xlsxMime ≠ docxMime := by decide
  refine ⟨?_, ?_, ?_, convertXlsxToText_join, convertXlsx_header_present⟩
  · intro b appName userId sessionId m ts
    by_cases h1 : m.mimeType = xlsxMime
    · refine ⟨by simp [processMediaMessage, h1], fun _ => ?_, fun h2 => ?_, fun hx _ => ?_⟩
      · simp [processMediaMessage, h1]
      · exact absurd (h1 ▸ h2) hmime
      · exact absurd h1 hx
    · by_cases h2 : m.mimeType = docxMime
      · refine ⟨by simp [processMediaMessage, h1, h2, hmime.symm], fun hx => ?_, fun _ => ?_,
          fun _ hd => ?_⟩
        · exact absurd hx h1
        · simp [processMediaMessage, h1, h2, hmime.symm]
        · exact absurd h2 hd
      · refine ⟨by simp [processMediaMessage, h1, h2], fun hx => absurd hx h1,
          fun hd => absurd hd h2, fun _ _ => ?_⟩
        simp [processMediaMessage, h1, h2]
  · intro b appName userId sessionId m ts base h1 hname hinf
    have : (processMediaMessage b appName userId sessionId m ts).1.filename =
        replaceFirst m.filename ".xlsx" ".txt" := by
      simp [processMediaMessage, h1]
    rw [this, hname,
      replaceFirst_ext_boundary base ".xlsx" ".txt" (by decide) xlsx_pat_no_self_overlap hinf]
  · intro b appName userId sessionId m ts base h2 hname hinf
    have h1 : m.mimeType ≠ xlsxMime := by rw [h2]; exact hmime.symm
    have : (processMediaMessage b appName userId sessionId m ts).1.filename =
        replaceFirst m.filename ".docx" ".txt" := by
      simp [processMediaMessage, h1, h2, hmime.symm]
    rw [this, hname,
      replaceFirst_ext_boundary base ".docx" ".txt" (by decide) docx_pat_no_self_overlap hinf]

/-- C9 witness: the amended statement at concrete inputs — a plain `.xlsx`
filename is rewritten to `.txt`, and a PDF passes through unchanged. -/
theorem c9_conversion_dispatch_witness :
    (processMediaMessage [] "app" "u" "sess"
        ⟨xlsxMime, "report.xlsx", [80], [⟨"Sheet1", "a,b"⟩], ""⟩ "t").1.filename =
      "report" ++ ".txt" ∧
    (processMediaMessage [] "app" "u" "sess"
        ⟨"application/pdf", "doc.pdf", [37, 80], [], ""⟩ "t").1.filename = "doc.pdf" :=
  ⟨c9_conversion_dispatch.2.1 [] "app" "u" "sess"
      ⟨xlsxMime, "report.xlsx", [80], [⟨"Sheet1", "a,b"⟩], ""⟩ "t" "report" rfl (by decide)
      (by decide),
   ((c9_conversion_dispatch.1 [] "app" "u" "sess"
      ⟨"application/pdf", "doc.pdf", [37, 80], [], ""⟩ "t").2.2.2 (by decide) (by decide)).1⟩
